import Mathlib

/-!
Verification of the G-code support-layer batching repository.

This file gives a shallow embedding, in Lean 4, of the core of the
repository: the G-code data model and line parsing (gcode_parser.py), the
collision-detection engine (collision_detector.py), the layer batching
scheduler (layer_batcher.py), the Z-hop synthesizer (zhop_manager.py), the
prime-tower synchronizer (prime_tower.py) and the per-object layer
splitting (object_segment_parser.py).

Modelling conventions:
  - Python floats are modelled as exact rationals; decimal literals such
    as 0.2 denote the exact rational 1/5.
  - Python mutable objects are modelled by explicit state passing.
  - Python int() truncation, negative list indexing and dict insertion
    order are modelled explicitly where the source relies on them.
  - A run-time exception (for example an out-of-range list index) is
    modelled by an Option result, with none standing for the exception.
-/

section Spec2Proof

attribute [local semireducible] Rat.add Rat.sub Rat.mul Rat.inv

/-- Truncation of a rational toward zero, as the Python builtin int()
behaves on floats: int(27/10) = 2 and int(-27/10) = -2. -/
def pyTrunc (q : ℚ) : ℤ :=
  if 0 ≤ q then ⌊q⌋ else -⌊-q⌋

/-- Python list indexing list[i]: a nonnegative index counts from the
front, a negative index counts from the back, and an out-of-range access
raises, which is modelled by none. -/
def pyGetElem {α : Type} (xs : List α) (i : ℤ) : Option α :=
  if 0 ≤ i then xs.get? i.toNat
  else if -i ≤ (xs.length : ℤ) then xs.get? (xs.length - (-i).toNat)
  else none

/-- Decimal digits of a char list read as a natural number. -/
def digitsToNat (ds : List Char) : ℕ :=
  ds.foldl (fun acc c => 10 * acc + (c.toNat - 48)) 0

/-- Value of a fractional digit block: the digits 25 denote 25/100. -/
def fracVal (ds : List Char) : ℚ :=
  (digitsToNat ds : ℚ) / (10 ^ ds.length : ℕ)

/-- Strip leading and trailing whitespace from a char list, as the Python
str.strip method does. -/
def trimChars (cs : List Char) : List Char :=
  ((cs.dropWhile Char.isWhitespace).reverse.dropWhile Char.isWhitespace).reverse

/-- First whitespace-separated token of a char list; the Python
line.split() call produces exactly this as element 0 when it is nonempty,
and an empty token list otherwise. -/
def firstToken (cs : List Char) : List Char :=
  (cs.dropWhile Char.isWhitespace).takeWhile (fun c => !c.isWhitespace)

/-- Split a char list at the first occurrence of a separator char, as the
Python line.split(sep, 1) call does when the separator occurs. -/
def splitAtFirst (sep : Char) : List Char → (List Char × List Char)
  | [] => ([], [])
  | c :: cs =>
    if c = sep then ([], cs)
    else
      let r := splitAtFirst sep cs
      (c :: r.1, r.2)

/-- Index of the first occurrence of a char, or the length of the list
when absent; used only where the source guarantees presence, matching the
Python str.index method. -/
def firstIdx (cs : List Char) (c : Char) : ℕ :=
  match cs with
  | [] => 0
  | d :: ds => if d = c then 0 else firstIdx ds c + 1

/-- Lowercase a string (ASCII), as the Python str.lower method. -/
def lowerStr (s : String) : String :=
  String.mk (s.toList.map Char.toLower)

/-- Whether the first char list is an initial run of the second. -/
def isPrefixOfChars : List Char → List Char → Bool
  | [], _ => true
  | _ :: _, [] => false
  | a :: as, b :: bs => a = b && isPrefixOfChars as bs

/-- Whether the first char list occurs contiguously inside the second. -/
def isInfixOfChars (sub s : List Char) : Bool :=
  match s with
  | [] => sub.isEmpty
  | _ :: t => isPrefixOfChars sub s || isInfixOfChars sub t

/-- Substring containment test, as the Python in operator on strings. -/
def containsSub (s sub : String) : Bool :=
  isInfixOfChars sub.toList s.toList

/-- Mirror of the Python int(str) conversion used on tool numbers: strip
whitespace, optional single sign, then at least one digit consuming the
whole remainder; anything else raises ValueError, modelled by none.
Python additionally tolerates underscores between digit groups, which no
G-code tool token contains. -/
def pyIntOfChars (cs : List Char) : Option ℤ :=
  let cs := trimChars cs
  let (sgn, rest) : ℤ × List Char :=
    match cs with
    | '+' :: t => (1, t)
    | '-' :: t => (-1, t)
    | t => (1, t)
  if rest ≠ [] ∧ rest.all Char.isDigit then some (sgn * (digitsToNat rest : ℤ))
  else none

/-- Parse, right after the parameter letter, the number pattern of the
extraction regex: an optional sign, then digits with an optional decimal
point that must be followed by at least one digit (greedy, with the
regex backtracking on a trailing bare dot). Returns none when the regex
group cannot match at this position. -/
def parseNumAfter (cs : List Char) : Option ℚ :=
  let (sgn, rest) : ℚ × List Char :=
    match cs with
    | '+' :: t => (1, t)
    | '-' :: t => (-1, t)
    | t => (1, t)
  let d1 := rest.takeWhile Char.isDigit
  let r1 := rest.dropWhile Char.isDigit
  match r1 with
  | '.' :: r2 =>
    let d2 := r2.takeWhile Char.isDigit
    if d2 ≠ [] then some (sgn * ((digitsToNat d1 : ℚ) + fracVal d2))
    else if d1 ≠ [] then some (sgn * (digitsToNat d1 : ℚ))
    else none
  | _ => if d1 ≠ [] then some (sgn * (digitsToNat d1 : ℚ)) else none

/-- Leftmost-match search of the float-extraction regex of the source:
the parameter letter immediately followed by a signed decimal number.
This mirrors the _extract_float helper of gcode_parser.py. -/
def extractFloat (p : Char) : List Char → Option ℚ
  | [] => none
  | c :: t =>
    if c = p then
      match parseNumAfter t with
      | some v => some v
      | none => extractFloat p t
    else extractFloat p t

/-- Round a rational to the nearest integer with ties to even, as Python
float formatting does. -/
def roundHalfEven (q : ℚ) : ℤ :=
  let f := ⌊q⌋
  let r := q - (f : ℚ)
  if r < 1 / 2 then f
  else if 1 / 2 < r then f + 1
  else if f % 2 = 0 then f else f + 1

/-- Left-pad the decimal representation of a natural number with zeros. -/
def natToPadded (n w : ℕ) : String :=
  let s := toString n
  String.mk (List.replicate (w - s.length) '0') ++ s

/-- Fixed-point formatting of a rational with the given number of decimal
places, mirroring the Python format spec .Nf (round half to even, no
decimal point when N = 0, a minus sign also for negative values that
round to zero). -/
def fmtFixed (q : ℚ) (nd : ℕ) : String :=
  let scaled := roundHalfEven (q * ((10 ^ nd : ℕ) : ℚ))
  let neg := scaled < 0 ∨ (scaled = 0 ∧ q < 0)
  let a := scaled.natAbs
  let sign := if neg then "-" else ""
  if nd = 0 then sign ++ toString a
  else sign ++ toString (a / 10 ^ nd) ++ "." ++ natToPadded (a % 10 ^ nd) nd

/-! ## Data model (gcode_parser.py) -/

/-- One parsed G-code command line, mirroring the GCodeCommand dataclass. -/
structure GCodeCommand where
  line_number : ℤ
  raw_line : String
  command : String
  x : Option ℚ
  y : Option ℚ
  z : Option ℚ
  e : Option ℚ
  f : Option ℚ
  tool : Option ℤ
  comment : Option String
  is_tool_change_sequence : Bool
deriving DecidableEq, Repr

/-- One object segment within a layer, mirroring the ObjectSegment
dataclass (the bounds field is the lazily assigned bounding box). -/
structure ObjectSegment where
  object_id : Option String
  tool : Option ℤ
  commands : List GCodeCommand
  tool_change_commands : List GCodeCommand
  bounds : Option (ℚ × ℚ × ℚ × ℚ)
deriving DecidableEq, Repr

/-- One print layer, mirroring the Layer dataclass. -/
structure Layer where
  layer_number : ℤ
  z_height : ℚ
  segments : List ObjectSegment
  commands : List GCodeCommand
  tool : Option ℤ
  bounds : Option (ℚ × ℚ × ℚ × ℚ)
  tool_change_commands : List GCodeCommand
deriving DecidableEq, Repr

/-- Minimum of a rational list under a fold, as the Python min builtin on
a nonempty list. -/
def listMinQ (xs : List ℚ) : ℚ :=
  xs.foldl min (xs.headD 0)

/-- Maximum of a rational list under a fold, as the Python max builtin on
a nonempty list. -/
def listMaxQ (xs : List ℚ) : ℚ :=
  xs.foldl max (xs.headD 0)

/-- The Layer.calculate_bounds method: collect the X and Y values of all
segment commands; with no coordinates it returns a zero tuple without
assigning the bounds field, otherwise it stores the bounding box. -/
def calculateBounds (l : Layer) : Layer :=
  let xs := (l.segments.map (fun s => s.commands.filterMap (fun c => c.x))).flatten
  let ys := (l.segments.map (fun s => s.commands.filterMap (fun c => c.y))).flatten
  if xs = [] ∨ ys = [] then l
  else { l with bounds := some (listMinQ xs, listMinQ ys, listMaxQ xs, listMaxQ ys) }

/-! ## Collision engine (collision_detector.py) -/

/-- Nozzle geometry, mirroring the NozzleGeometry dataclass. The source
computes np.tan(np.radians(cone_angle / 2)) at query time; since the
tangent of an angle is transcendental, the embedding carries that value
as the extra rational field tan_half_angle supplied with the data. -/
structure NozzleGeometry where
  diameter : ℚ
  cone_angle : ℚ
  height : ℚ
  tan_half_angle : ℚ
deriving DecidableEq, Repr

/-- The get_radius_at_height method: tip radius below the tip, and a
linear cone above it. -/
def getRadiusAtHeight (n : NozzleGeometry) (h : ℚ) : ℚ :=
  if h ≤ 0 then n.diameter / 2
  else n.diameter / 2 + h * n.tan_half_angle

/-- Collision detector configuration (the geometry map is threaded
separately, mirroring the mutable self.layer_geometry field). -/
structure CollisionDetector where
  nozzle : NozzleGeometry
  safety_margin : ℚ
deriving DecidableEq, Repr

/-- The voxel edge length fixed in the CollisionDetector constructor
(self.voxel_size = 0.5). -/
def voxelSize : ℚ := 1 / 2

/-- The geometry map built by build_geometry_map: layer number to the set
of occupied voxels, none for a layer absent from the dictionary. -/
abbrev GeoMap := ℤ → Option (Finset (ℤ × ℤ))

/-- The _position_to_voxel method: divide by the voxel size and truncate
toward zero as Python int() does. -/
def positionToVoxel (x y : ℚ) : ℤ × ℤ :=
  (pyTrunc (x / voxelSize), pyTrunc (y / voxelSize))

/-- Voxels of one layer: one cell per command with X, Y and E all present
and a positive extrusion value. -/
def voxelsOfLayer (l : Layer) : Finset (ℤ × ℤ) :=
  l.commands.foldl
    (fun s c =>
      match c.x, c.y, c.e with
      | some x, some y, some e => if 0 < e then insert (positionToVoxel x y) s else s
      | _, _, _ => s)
    ∅

/-- The build_geometry_map method: a dictionary written in layer order,
with a later write to the same layer number overriding an earlier one. -/
def buildGeometryMap (layers : List Layer) : GeoMap :=
  layers.foldl
    (fun m l => fun n => if n = l.layer_number then some (voxelsOfLayer l) else m n)
    (fun _ => none)

/-- The comparison sqrt(dx^2 + dy^2) * voxelSize <= r of the source,
stated without a square root: for a nonnegative radius both sides may be
squared, and for a negative radius the comparison is always false since
the distance is nonnegative. -/
def cellDistLe (dx dy : ℤ) (r : ℚ) : Bool :=
  decide (0 ≤ r ∧ ((dx ^ 2 + dy ^ 2 : ℤ) : ℚ) * voxelSize ^ 2 ≤ r ^ 2)

/-- The _check_layer_collision method: missing layers report no
collision; otherwise scan, for every printing voxel, the square grid
neighborhood of radius int(r / voxelSize) + 1 and report a collision when
an occupied existing voxel lies within the true center distance r. -/
def checkLayerCollision (geo : GeoMap) (printing existing : Layer) (r : ℚ) : Bool :=
  match geo printing.layer_number with
  | none => false
  | some pv =>
    match geo existing.layer_number with
    | none => false
    | some ev =>
      let cvr : ℤ := pyTrunc (r / voxelSize) + 1
      decide (∃ p ∈ pv, ∃ dx ∈ Finset.Icc (-cvr) cvr, ∃ dy ∈ Finset.Icc (-cvr) cvr,
        (p.1 + dx, p.2 + dy) ∈ ev ∧ cellDistLe dx dy r = true)

/-- The can_batch_layers method: one check radius computed from the Z gap
between the end layer and the start layer, then a scan of every layer
with an index strictly between the two, with an early False on the first
collision. -/
def canBatchLayers (det : CollisionDetector) (geo : GeoMap)
    (start_layer end_layer : Layer) (all_layers : List Layer) : Bool :=
  let z_diff := end_layer.z_height - start_layer.z_height
  let check_radius := getRadiusAtHeight det.nozzle z_diff + det.safety_margin
  all_layers.all (fun l =>
    if start_layer.layer_number < l.layer_number ∧ l.layer_number < end_layer.layer_number then
      !checkLayerCollision geo end_layer l check_radius
    else true)

/-- One probe of the find_maximum_batch_size loop body at offset i:
some false means the loop breaks (index past the end, tool mismatch or
collision), some true means the candidate is accepted, none means the
list access would raise. -/
def candidateOk (det : CollisionDetector) (geo : GeoMap)
    (start_layer : Layer) (all_layers : List Layer) (i : ℕ) : Option Bool :=
  let start_idx : ℤ := start_layer.layer_number - 1
  let next_idx : ℤ := start_idx + (i : ℤ)
  if (all_layers.length : ℤ) ≤ next_idx then some false
  else
    match pyGetElem all_layers next_idx with
    | none => none
    | some next_layer =>
      some (next_layer.tool = start_layer.tool ∧
        canBatchLayers det geo start_layer next_layer all_layers = true)

/-- The loop of find_maximum_batch_size over the candidate offsets, with
the running batch size as accumulator. -/
def fmbsGo (ok : ℕ → Option Bool) : List ℕ → ℕ → Option ℕ
  | [], bs => some bs
  | i :: rest, bs =>
    match ok i with
    | none => none
    | some false => some bs
    | some true => fmbsGo ok rest (i + 1)

/-- The find_maximum_batch_size method: walk offsets 1 .. max_layers from
the start layer, keeping the last accepted offset plus one; none models
the IndexError reachable only for a nonpositive start layer number. -/
def findMaximumBatchSize (det : CollisionDetector) (geo : GeoMap)
    (start_layer : Layer) (all_layers : List Layer) (max_layers : ℕ) : Option ℕ :=
  fmbsGo (candidateOk det geo start_layer all_layers) (List.range' 1 max_layers) 1

/-- Helper for concrete instances: a minimal extrusion move at a point. -/
def mkExtrude (x y : ℚ) : GCodeCommand :=
  { line_number := 0, raw_line := "G1", command := "G1", x := some x, y := some y,
    z := none, e := some 1, f := none, tool := none, comment := none,
    is_tool_change_sequence := false }

/-- Helper for concrete instances: a bare layer with given number, height,
tool and commands. -/
def mkLayer (n : ℤ) (zh : ℚ) (t : ℤ) (cmds : List GCodeCommand) : Layer :=
  { layer_number := n, z_height := zh, segments := [], commands := cmds,
    tool := some t, bounds := none, tool_change_commands := [] }

example :
    checkLayerCollision (buildGeometryMap [mkLayer 1 0 0 [mkExtrude 0 0], mkLayer 2 1 0 [mkExtrude 0 0]])
      (mkLayer 2 1 0 [mkExtrude 0 0]) (mkLayer 1 0 0 [mkExtrude 0 0]) 1 = true := by decide

example :
    checkLayerCollision (buildGeometryMap [mkLayer 1 0 0 [mkExtrude 0 0], mkLayer 2 1 0 [mkExtrude 5 0]])
      (mkLayer 2 1 0 [mkExtrude 5 0]) (mkLayer 1 0 0 [mkExtrude 0 0]) 1 = false := by decide

/-! ## Batch scheduler (layer_batcher.py) -/

/-- One batch of layers printed with a single tool, mirroring the
LayerBatch dataclass. -/
structure LayerBatch where
  tool : ℤ
  start_layer : ℤ
  end_layer : ℤ
  layers : List Layer
deriving DecidableEq, Repr

/-- The effective tool of a layer as the batcher reads it: a missing tool
is treated as tool 0 (the expression l.tool if l.tool is not None else 0). -/
def toolOf (l : Layer) : ℤ :=
  l.tool.getD 0

/-- Minimum of an integer list under a fold, as the Python min builtin on
a nonempty list. -/
def listMinZ (xs : List ℤ) : ℤ :=
  xs.foldl min (xs.headD 0)

/-- Maximum of an integer list under a fold, as the Python max builtin on
a nonempty list. -/
def listMaxZ (xs : List ℤ) : ℤ :=
  xs.foldl max (xs.headD 0)

/-- One pass of the interleaved while loop for one tool stream: when the
stream still has layers, emit one batch holding the next chunk of at most
max_batch_layers of them (no batch when the chunk is empty, which with a
zero cap also means the stream index does not advance). -/
def chunkBatch (t : ℤ) (maxB : ℕ) (l : List Layer) : List LayerBatch :=
  match l.take maxB with
  | [] => []
  | x :: xs =>
    [{ tool := t, start_layer := x.layer_number,
       end_layer := ((x :: xs).getLastD x).layer_number, layers := x :: xs }]

/-- The while loop of _create_interleaved_object_batches, with explicit
fuel: each iteration takes one chunk from each stream; with a zero cap the
Python loop never advances and never terminates, which surfaces here as
running out of fuel, modelled by none. -/
def interleaveGo (t0 t1 : ℤ) (maxB : ℕ) (fuel : ℕ) (l0 l1 : List Layer) :
    Option (List LayerBatch) :=
  if l0 = [] ∧ l1 = [] then some []
  else
    match fuel with
    | 0 => none
    | fuel + 1 =>
      match interleaveGo t0 t1 maxB fuel (l0.drop maxB) (l1.drop maxB) with
      | none => none
      | some rest => some (chunkBatch t0 maxB l0 ++ chunkBatch t1 maxB l1 ++ rest)

/-- Build a batch from a now-closed accumulated run of layers, as both
closing sites of _create_sequential_batches do (first and last member
give the start and end layer numbers; the run is nonempty at both sites,
so the default of getLastD is never read). -/
def closeBatch (t : ℤ) (cur : List Layer) : LayerBatch :=
  { tool := t, start_layer := (cur.headD (mkLayer 0 0 0 [])).layer_number,
    end_layer := (cur.getLastD (mkLayer 0 0 0 [])).layer_number, layers := cur }

/-- The loop of _create_sequential_batches: walk the layers, accumulating
the current run, closing it when the tool changes or the cap is reached,
and flushing the remainder at the end. -/
def seqGo (maxB : ℕ) : List Layer → List Layer → Option ℤ → List LayerBatch
  | [], cur, curTool =>
    if cur = [] then [] else [closeBatch (curTool.getD 0) cur]
  | l :: rest, cur, curTool =>
    let lt := toolOf l
    match curTool with
    | none => seqGo maxB rest (cur ++ [l]) (some lt)
    | some t =>
      let should_start := t ≠ lt ∨ maxB ≤ cur.length
      if should_start ∧ cur ≠ [] then
        closeBatch t cur :: seqGo maxB rest [l] (some lt)
      else
        seqGo maxB rest (cur ++ [l]) (some t)

/-- The _create_sequential_batches method. -/
def createSequentialBatches (maxB : ℕ) (layers : List Layer) : List LayerBatch :=
  seqGo maxB layers [] none

/-- The create_batches method of LayerBatcher: build the geometry map
(which the two batching paths below never read), detect a two-tool
alternating pattern over the first min(10, n - 1) adjacent pairs, and
dispatch to the interleaved or the sequential strategy. The collision
detector argument mirrors the constructor argument of LayerBatcher. -/
def createBatches (det : CollisionDetector) (maxB : ℕ) (layers : List Layer) :
    Option (List LayerBatch) :=
  if layers = [] then some []
  else
    let geo := buildGeometryMap layers
    let tools := layers.map toolOf
    let k := min 10 (tools.length - 1)
    let is_alternating :=
      (List.range k).all (fun i => !(tools.getD i 0 = tools.getD (i + 1) 0 : Bool))
    if is_alternating = true ∧ tools.toFinset.card = 2 then
      let t0 := listMinZ tools
      let t1 := listMaxZ tools
      let l0 := layers.filter (fun l => toolOf l = t0)
      let l1 := layers.filter (fun l => toolOf l = t1)
      interleaveGo t0 t1 maxB (l0.length + l1.length + 1) l0 l1
    else
      some (createSequentialBatches maxB layers)

example :
    createBatches { nozzle := { diameter := 1, cone_angle := 90, height := 10, tan_half_angle := 1 }, safety_margin := 0 } 2
      [mkLayer 1 0 0 [], mkLayer 2 (1/5) 0 [], mkLayer 3 (2/5) 1 [], mkLayer 4 (3/5) 0 []] =
    some [closeBatch 0 [mkLayer 1 0 0 [], mkLayer 2 (1/5) 0 []],
          closeBatch 1 [mkLayer 3 (2/5) 1 []],
          closeBatch 0 [mkLayer 4 (3/5) 0 []]] := by decide

/-! ## Z-hop synthesizer (zhop_manager.py) -/

/-- Z-hop configuration, mirroring the ZHopConfig dataclass. -/
structure ZHopConfig where
  zhop_height : ℚ
  zhop_speed : ℚ
  travel_speed : ℚ
  enabled : Bool
deriving DecidableEq, Repr

/-- The zhop_feedrate method (mm per minute). -/
def zhopFeedrate (c : ZHopConfig) : ℚ :=
  c.zhop_speed * 60

/-- The travel_feedrate method (mm per minute). -/
def travelFeedrate (c : ZHopConfig) : ℚ :=
  c.travel_speed * 60

/-- The _add_zhop_sequence method: one Z-only move up to the hop height,
then only the X or Y carrying G0 or G1 commands of the travel, rebuilt
with no Z and the travel feedrate, then one Z-only move down to the
destination height. -/
def addZhopSequence (cfg : ZHopConfig) (commands : List GCodeCommand)
    (from_z to_z : ℚ) (current_pos : ℚ × ℚ × ℚ) : List GCodeCommand :=
  let zhop_z := from_z + cfg.zhop_height
  let zhop_up : GCodeCommand :=
    { line_number := -1,
      raw_line := "G1 Z" ++ fmtFixed zhop_z 3 ++ " F" ++ fmtFixed (zhopFeedrate cfg) 0,
      command := "G1", x := none, y := none, z := some zhop_z, e := none,
      f := some (zhopFeedrate cfg), tool := none,
      comment := some "Z-hop up for layer travel", is_tool_change_sequence := false }
  let travels := commands.filterMap (fun cmd =>
    if (cmd.command = "G0" ∨ cmd.command = "G1") ∧ (cmd.x ≠ none ∨ cmd.y ≠ none) then
      some { line_number := cmd.line_number, raw_line := cmd.raw_line,
             command := cmd.command, x := cmd.x, y := cmd.y, z := none, e := none,
             f := some (travelFeedrate cfg), tool := none,
             comment := some "Travel at Z-hop height", is_tool_change_sequence := false }
    else none)
  let zhop_down : GCodeCommand :=
    { line_number := -1,
      raw_line := "G1 Z" ++ fmtFixed to_z 3 ++ " F" ++ fmtFixed (zhopFeedrate cfg) 0,
      command := "G1", x := none, y := none, z := some to_z, e := none,
      f := some (zhopFeedrate cfg), tool := none,
      comment := some "Z-hop down to destination layer", is_tool_change_sequence := false }
  zhop_up :: travels ++ [zhop_down]

/-- The insert_zhop_for_travel method: pass the commands through when
disabled or when the destination is not lower, otherwise wrap them in the
hop sequence. -/
def insertZhopForTravel (cfg : ZHopConfig) (commands : List GCodeCommand)
    (from_z to_z : ℚ) (current_pos : ℚ × ℚ × ℚ) : List GCodeCommand :=
  if cfg.enabled = false then commands
  else if to_z < from_z then addZhopSequence cfg commands from_z to_z current_pos
  else commands

/-- The needs_zhop method. -/
def needsZhop (from_layer to_layer : ℤ) : Bool :=
  decide (to_layer < from_layer)

/-! ## Prime tower synchronizer (prime_tower.py) -/

/-- Prime tower configuration, mirroring the PrimeTowerConfig dataclass. -/
structure PrimeTowerConfig where
  enabled : Bool
  tower_size : ℚ
  tower_spacing : ℚ
  wall_thickness : ℚ
  purge_volume : ℚ
  position_x : ℚ
  position_y : ℚ
  layer_height : ℚ
  extrusion_width : ℚ
deriving DecidableEq, Repr

/-- One prime tower, mirroring the PrimeTower dataclass. -/
structure PrimeTower where
  tool : ℤ
  position : ℚ × ℚ
  size : ℚ
  current_layer : ℤ
deriving DecidableEq, Repr

/-- The get_perimeter_commands method: one travel move to the corner and
four extruding perimeter moves. The z_height parameter of the source is
accepted and, exactly as in the source, never used: no generated command
carries a Z coordinate. -/
def getPerimeterCommands (tw : PrimeTower) (z_height extrusion_width layer_height : ℚ) :
    List GCodeCommand :=
  let x := tw.position.1
  let y := tw.position.2
  let extrusion_per_mm := extrusion_width * layer_height / (12 / 5)
  let e_per_side := tw.size * extrusion_per_mm
  let move_cmd : GCodeCommand :=
    { line_number := -1,
      raw_line := "G1 X" ++ fmtFixed x 3 ++ " Y" ++ fmtFixed y 3 ++ " F3000",
      command := "G1", x := some x, y := some y, z := none, e := none,
      f := some 3000, tool := none,
      comment := some ("Move to T" ++ toString tw.tool ++ " prime tower"),
      is_tool_change_sequence := false }
  let corners : List (ℚ × ℚ) := [(x + tw.size, y), (x + tw.size, y + tw.size), (x, y + tw.size), (x, y)]
  move_cmd :: corners.map (fun c =>
    { line_number := -1,
      raw_line := "G1 X" ++ fmtFixed c.1 3 ++ " Y" ++ fmtFixed c.2 3 ++ " E" ++ fmtFixed e_per_side 4,
      command := "G1", x := some c.1, y := some c.2, z := none, e := some e_per_side,
      f := none, tool := none, comment := some "Prime tower perimeter",
      is_tool_change_sequence := false })

/-- State of the prime tower manager: configuration plus the towers
dictionary in insertion order. -/
structure PrimeTowerManager where
  config : PrimeTowerConfig
  towers : List PrimeTower
deriving DecidableEq, Repr

/-- The generate_tower_for_layer method: nothing when disabled or when
the tool has no tower; otherwise set the tower catch-up counter to the
given layer number and emit the perimeter commands. -/
def generateTowerForLayer (mgr : PrimeTowerManager) (tool : ℤ) (z_height : ℚ)
    (layer_number : ℤ) : List GCodeCommand × PrimeTowerManager :=
  if mgr.config.enabled = false then ([], mgr)
  else
    match mgr.towers.find? (fun t => t.tool = tool) with
    | none => ([], mgr)
    | some tw =>
      let updated := { mgr with
        towers := mgr.towers.map (fun t =>
          if t.tool = tool then { t with current_layer := layer_number } else t) }
      (getPerimeterCommands { tw with current_layer := layer_number } z_height
        mgr.config.extrusion_width mgr.config.layer_height, updated)

/-- The synthesized tool-select command of synchronize_towers. -/
def towerToolSelect (tool : ℤ) (back : Bool) : GCodeCommand :=
  { line_number := -1, raw_line := "T" ++ toString tool,
    command := "T" ++ toString tool, x := none, y := none, z := none, e := none,
    f := none, tool := some tool,
    comment := some (if back then "Switch back to T" ++ toString tool
                     else "Switch to T" ++ toString tool ++ " for tower sync"),
    is_tool_change_sequence := false }

/-- The synthesized retraction command of synchronize_towers. -/
def towerRetract : GCodeCommand :=
  { line_number := -1, raw_line := "G1 E-1.0 F1800", command := "G1",
    x := none, y := none, z := none, e := some (-1), f := some 1800,
    tool := none, comment := some "Retract after tower",
    is_tool_change_sequence := false }

/-- The inner catch-up loop of synchronize_towers for one dormant tool:
for each skipped offset, compute the layer Z from the fixed
layers_behind count, but re-read the tower counter (already advanced by
the previous iteration) to compute the injected layer number, exactly as
the source does on the mutated tower object. -/
def catchUpTower (tool_id : ℤ) (current_layer : ℤ) (z_height : ℚ) (n : ℕ)
    (st : List GCodeCommand × PrimeTowerManager) : List GCodeCommand × PrimeTowerManager :=
  (List.range n).foldl
    (fun st2 offset =>
      let cl := match st2.2.towers.find? (fun t => t.tool = tool_id) with
                | some t2 => t2.current_layer
                | none => 0
      let layer_z := z_height - ((n - offset - 1 : ℕ) : ℚ) * st2.2.config.layer_height
      let layer_num := cl + (offset : ℤ) + 1
      let r := generateTowerForLayer st2.2 tool_id layer_z layer_num
      (st2.1 ++ [towerToolSelect tool_id false] ++ r.1 ++ [towerRetract], r.2))
    st

/-- The synchronize_towers method: walk the towers in dictionary order,
catch up every dormant tower whose counter is behind the current layer,
and append a switch back to the current tool when anything was emitted.
Returns the emitted commands and the updated manager state. -/
def synchronizeTowers (mgr : PrimeTowerManager) (current_tool current_layer : ℤ)
    (z_height : ℚ) : List GCodeCommand × PrimeTowerManager :=
  let ids := mgr.towers.map (fun t => t.tool)
  let r := ids.foldl
    (fun (st : List GCodeCommand × PrimeTowerManager) tool_id =>
      if tool_id = current_tool then st
      else
        match st.2.towers.find? (fun t => t.tool = tool_id) with
        | none => st
        | some tw =>
          let layers_behind := current_layer - tw.current_layer
          if layers_behind ≤ 0 then st
          else catchUpTower tool_id current_layer z_height layers_behind.toNat st)
    ([], mgr)
  if r.1 = [] then r
  else (r.1 ++ [towerToolSelect current_tool true], r.2)

/-! ## Per-object layer splitting (object_segment_parser.py) -/

/-- One object contribution to a physical layer, mirroring the
ObjectLayer dataclass. -/
structure ObjectLayer where
  layer_number : ℤ
  object_id : Option String
  tool : ℤ
  z_height : ℚ
  commands : List GCodeCommand
  tool_change_commands : List GCodeCommand
deriving DecidableEq, Repr

/-- The tool-select recognizer shared by the splitting loop: a command
token starting with T whose remainder parses as an integer in 0 .. 9. -/
def toolSelectNum (cmd : GCodeCommand) : Option ℤ :=
  if isPrefixOfChars ['T'] cmd.command.toList then
    match pyIntOfChars (cmd.command.toList.drop 1) with
    | some n => if 0 ≤ n ∧ n ≤ 9 then some n else none
    | none => none
  else none

/-- The starting-tool scan of _split_layer_by_tool_change over the
tool-change block that preceded the layer, defaulting to tool 0. -/
def startingTool (layer : Layer) : ℤ :=
  (layer.tool_change_commands.foldl
    (fun acc c => match toolSelectNum c with | some n => some n | none => acc)
    (none : Option ℤ)).getD 0

/-- Loop state of _split_layer_by_tool_change. -/
structure SplitState where
  segments : List ObjectLayer
  cur : List GCodeCommand
  tcc : List GCodeCommand
  tool : ℤ
  in_tc : Bool
deriving DecidableEq, Repr

/-- Segment constructor used at both closing sites of the split loop. -/
def mkObjectSeg (layer : Layer) (t : ℤ) (cmds tcc : List GCodeCommand) : ObjectLayer :=
  { layer_number := layer.layer_number, object_id := none, tool := t,
    z_height := layer.z_height, commands := cmds, tool_change_commands := tcc }

/-- One iteration of the _split_layer_by_tool_change loop: a 0 - 9 tool
select closes the pending segment (when nonempty) and opens a tool-change
block; while inside a block, sequence members and the listed M codes are
collected into the block, with an X or Y move ending the block; anything
else ends the block and joins the ordinary command run. -/
def splitStep (layer : Layer) (st : SplitState) (cmd : GCodeCommand) : SplitState :=
  match toolSelectNum cmd with
  | some n =>
    let st :=
      if st.cur ≠ [] then
        { st with
          segments := st.segments ++ [mkObjectSeg layer st.tool st.cur st.tcc],
          cur := [],
          tcc := [] }
      else st
    { st with tool := n, in_tc := true, tcc := st.tcc ++ [cmd] }
  | none =>
    if st.in_tc = true ∧ (cmd.is_tool_change_sequence = true ∨
        cmd.command ∈ ["M620", "M621", "M104", "M109", "M106"]) then
      { st with
        tcc := st.tcc ++ [cmd],
        in_tc := if cmd.x ≠ none ∨ cmd.y ≠ none then false else st.in_tc }
    else
      { st with in_tc := false, cur := st.cur ++ [cmd] }

/-- The final split state of a layer after the loop over its commands. -/
def runSplit (layer : Layer) : SplitState :=
  layer.commands.foldl (splitStep layer)
    { segments := [], cur := [], tcc := [], tool := startingTool layer, in_tc := false }

/-- The _split_layer_by_tool_change method: run the loop, flush a final
nonempty command run, and fall back to one whole-layer segment when no
segment was produced. -/
def splitLayerByToolChange (layer : Layer) : List ObjectLayer :=
  let st := runSplit layer
  let segs :=
    if st.cur ≠ [] then st.segments ++ [mkObjectSeg layer st.tool st.cur st.tcc]
    else st.segments
  if segs = [] then
    [{ layer_number := layer.layer_number, object_id := none, tool := st.tool,
       z_height := layer.z_height, commands := layer.commands,
       tool_change_commands := layer.tool_change_commands }]
  else segs

/-- Concatenation, for each segment in order, of its tool-change block
followed by its command run. -/
def joinSegments (segs : List ObjectLayer) : List GCodeCommand :=
  (segs.map (fun s => s.tool_change_commands ++ s.commands)).flatten

/-! ## Line parsing (gcode_parser.py) -/

/-- The layer marker literal searched for in lowered comment lines. -/
def markerLit : String := "layer num/total_layer_count:"

/-- Attempt of the layer-marker regex at one position of the lowered
line: the literal, optional whitespace, digits, a slash, digits; the
first digit group is the layer number. -/
def matchMarkerAt (cs : List Char) : Option ℕ :=
  if isPrefixOfChars markerLit.toList cs = true then
    let rest := (cs.drop markerLit.toList.length).dropWhile Char.isWhitespace
    let d1 := rest.takeWhile Char.isDigit
    let r1 := rest.dropWhile Char.isDigit
    match d1, r1 with
    | _ :: _, '/' :: r2 =>
      match r2.takeWhile Char.isDigit with
      | [] => none
      | _ :: _ => some (digitsToNat d1)
    | _, _ => none
  else none

/-- Leftmost-match search of the layer-marker regex over the lowered
line, as re.search with IGNORECASE does. -/
def findMarkerNum : List Char → Option ℕ
  | [] => none
  | c :: t =>
    match matchMarkerAt (c :: t) with
    | some n => some n
    | none => findMarkerNum t

/-- The _parse_command method: split off a comment at the first
semicolon, strip, take the first whitespace token as the mnemonic (an
all-blank body yields the bare command with no comment attached, exactly
as the early return of the source does), and extract the five numeric
parameters from the comment-free body. -/
def parseCommand (line_number : ℤ) (line : String) : GCodeCommand :=
  let cs := line.toList
  let bodyComment :=
    if cs.contains ';' then
      let p := splitAtFirst ';' cs
      (trimChars p.1, some (String.mk (trimChars p.2)))
    else (cs, (none : Option String))
  let body := bodyComment.1
  match firstToken body with
  | [] =>
    { line_number := line_number, raw_line := String.mk body, command := "",
      x := none, y := none, z := none, e := none, f := none, tool := none,
      comment := none, is_tool_change_sequence := false }
  | tok =>
    { line_number := line_number, raw_line := String.mk body,
      command := String.mk tok,
      x := extractFloat 'X' body, y := extractFloat 'Y' body,
      z := extractFloat 'Z' body, e := extractFloat 'E' body,
      f := extractFloat 'F' body, tool := none,
      comment := bodyComment.2, is_tool_change_sequence := false }

/-- Mutable state of GCodeParser.parse_lines: the parser object fields
together with the loop locals. -/
structure ParseState where
  layers : List Layer
  current_tool : Option ℤ
  pos_x : ℚ
  pos_y : ℚ
  pos_z : ℚ
  pos_e : ℚ
  pending_tool_change_commands : List GCodeCommand
  in_tool_change_sequence : Bool
  header_lines : List String
  current_layer : Option Layer
  current_z : Option ℚ
  layer_number : ℕ
  in_header : Bool
deriving DecidableEq, Repr

/-- The fresh state of a GCodeParser object entering parse_lines. -/
def initParseState : ParseState :=
  { layers := [], current_tool := none, pos_x := 0, pos_y := 0, pos_z := 0,
    pos_e := 0, pending_tool_change_commands := [], in_tool_change_sequence := false,
    header_lines := [], current_layer := none, current_z := none,
    layer_number := 0, in_header := true }

/-- Close the pending layer: compute its bounds and append it to the
parsed list, as both flushing sites of parse_lines do. -/
def flushCurrentLayer (st : ParseState) : ParseState :=
  match st.current_layer with
  | none => st
  | some l =>
    { st with layers := st.layers ++ [calculateBounds l], current_layer := none }

/-- Whether a stripped line enters the layer-marker branch: a comment
line whose lowering contains the marker literal. -/
def isMarkerCandidate (line : String) : Bool :=
  isPrefixOfChars [';'] line.toList && containsSub (lowerStr line) markerLit

/-- The equals-sign guard distinguishing a real layer marker from a
config line: no equals sign, or the first colon before the first equals
sign. -/
def markerEqGuard (line : String) : Bool :=
  !(line.toList.contains '=') || decide (firstIdx line.toList ':' < firstIdx line.toList '=')

/-- One iteration of the parse_lines loop on one raw input line. -/
def processLine (st : ParseState) (line_num : ℕ) (raw : String) : ParseState :=
  let line := String.mk (trimChars raw.toList)
  if line.toList.isEmpty then
    if st.in_header then { st with header_lines := st.header_lines ++ [raw] } else st
  else if isMarkerCandidate line = true ∧ markerEqGuard line = true then
    let st := { st with in_header := false }
    match findMarkerNum (lowerStr line).toList with
    | some n =>
      let st1 := flushCurrentLayer st
      { st1 with
        layer_number := n,
        current_layer := some
          { layer_number := (n : ℤ), z_height := st1.current_z.getD 0,
            segments := [], commands := [],
            tool := some (st1.current_tool.getD 0), bounds := none,
            tool_change_commands := st1.pending_tool_change_commands },
        pending_tool_change_commands := [],
        in_tool_change_sequence := false }
    | none => st
  else if st.in_header then
    { st with header_lines := st.header_lines ++ [raw] }
  else
    let cmd0 := parseCommand (line_num : ℤ) line
    let toolHit : Option ℤ :=
      if isPrefixOfChars ['T'] cmd0.command.toList then
        match pyIntOfChars (cmd0.command.toList.drop 1) with
        | some n => if 0 ≤ n ∧ n ≤ 9 then some n else none
        | none => none
      else none
    let st1 := match toolHit with
      | some n => { st with current_tool := some n, in_tool_change_sequence := true }
      | none => st
    let cmd1 := match toolHit with
      | some n => { cmd0 with tool := some n, is_tool_change_sequence := true }
      | none => cmd0
    let cmd2 :=
      if st1.in_tool_change_sequence then { cmd1 with is_tool_change_sequence := true }
      else cmd1
    let st2 :=
      if st1.in_tool_change_sequence then
        { st1 with pending_tool_change_commands := st1.pending_tool_change_commands ++ [cmd2] }
      else st1
    let st3 := { st2 with
      pos_x := (cmd2.x.getD st2.pos_x),
      pos_y := (cmd2.y.getD st2.pos_y),
      pos_e := (cmd2.e.getD st2.pos_e) }
    let st4 := match cmd2.z with
      | none => st3
      | some zv =>
        let st3a := { st3 with pos_z := zv }
        if st3a.current_z.getD 0 < zv then
          { st3a with
            current_z := some zv,
            current_layer := st3a.current_layer.map (fun (l : Layer) => { l with z_height := zv }) }
        else st3a
    match st4.current_layer with
    | none => st4
    | some l =>
      let newTool := match cmd2.tool with | some t => some t | none => l.tool
      let lNew := { l with commands := l.commands ++ [cmd2], tool := newTool }
      { st4 with current_layer := some lNew }

/-- The parse_lines method on a fresh parser: fold the loop body over the
enumerated lines and flush the last layer. -/
def parseLines (lines : List String) : List Layer :=
  (flushCurrentLayer
    (lines.enum.foldl (fun st p => processLine st p.1 p.2) initParseState)).layers

example : parseLines ["G1 Z0.2 E1", "G1 Z0.4 E1"] = [] := by decide

example : (parseCommand 0 "G1 Z0.2 E1").z = some (1/5) := by decide

example : isMarkerCandidate "; layer num/total_layer_count: 1/2" = true := by decide
example : markerEqGuard "; layer num/total_layer_count: 1/2" = true := by decide
example : findMarkerNum (lowerStr "; layer num/total_layer_count: 1/2").toList = some 1 := by decide
example : (processLine initParseState 0 "; layer num/total_layer_count: 1/2").in_header = false := by decide
example : (processLine initParseState 0 "; layer num/total_layer_count: 1/2").current_layer.isSome = true := by decide
example : (parseLines ["; layer num/total_layer_count: 1/2"]).length = 1 := by decide
example : (parseLines ["; layer num/total_layer_count: 1/2", "T1"]).length = 1 := by decide
example : (parseLines ["; layer num/total_layer_count: 1/2", "G1 X1 Y1 Z0.2 E2"]).length = 1 := by decide

/-! ## Claims about the collision engine -/

/-- The truncation used for a nonnegative argument is the floor. -/
lemma pyTrunc_of_nonneg (q : ℚ) (h : 0 ≤ q) : pyTrunc q = ⌊q⌋ := by
  simp [pyTrunc, h]

/-- Dividing by the voxel size is doubling. -/
lemma div_voxelSize (r : ℚ) : r / voxelSize = 2 * r := by
  rw [voxelSize]
  field_simp
  ring

/-- Completeness of the grid neighborhood bound: a cell pair within the
check radius has both coordinate gaps inside the scanned square. -/
lemma grid_bound (dx dy : ℤ) (r : ℚ) (hr : 0 ≤ r)
    (h : ((dx ^ 2 + dy ^ 2 : ℤ) : ℚ) * voxelSize ^ 2 ≤ r ^ 2) :
    dx ∈ Finset.Icc (-(pyTrunc (r / voxelSize) + 1)) (pyTrunc (r / voxelSize) + 1) := by
  rw [div_voxelSize, pyTrunc_of_nonneg _ (by positivity)]
  have hq : ((dx : ℚ)) ^ 2 + ((dy : ℚ)) ^ 2 ≤ (2 * r) ^ 2 := by
    rw [voxelSize] at h
    push_cast at h
    nlinarith [h]
  have h1 : (dx : ℚ) ≤ 2 * r := by nlinarith [sq_nonneg ((dy : ℚ)), sq_nonneg ((dx : ℚ) - 2 * r)]
  have h2 : -(2 * r) ≤ (dx : ℚ) := by nlinarith [sq_nonneg ((dy : ℚ)), sq_nonneg ((dx : ℚ) + 2 * r)]
  have hf1 : dx ≤ ⌊2 * r⌋ := Int.le_floor.mpr h1
  have hf2 : -dx ≤ ⌊2 * r⌋ := by
    apply Int.le_floor.mpr
    push_cast
    linarith
  rw [Finset.mem_Icc]
  omega

/-- Claim C6: _check_layer_collision is exactly the naive all-pairs test,
with the Euclidean comparison distance(a, b) <= r written in its
square-root-free form 0 <= r and (gap squared) times voxelSize squared
<= r squared. The grid neighborhood is a complete broad-phase filter and
the explicit distance test a sound narrow phase, so the two definitions
agree on every input, including layers missing from the geometry map,
which contribute no occupied cells. -/
theorem c6_check_layer_collision_eq_naive (geo : GeoMap) (printing existing : Layer) (r : ℚ) :
    checkLayerCollision geo printing existing r = true ↔
      ∃ a ∈ (geo printing.layer_number).getD ∅, ∃ b ∈ (geo existing.layer_number).getD ∅,
        0 ≤ r ∧ (((b.1 - a.1) ^ 2 + (b.2 - a.2) ^ 2 : ℤ) : ℚ) * voxelSize ^ 2 ≤ r ^ 2 := by
  unfold checkLayerCollision
  cases hp : geo printing.layer_number with
  | none => simp [hp]
  | some pv =>
    cases he : geo existing.layer_number with
    | none => simp [hp, he]
    | some ev =>
      simp only [hp, he, Option.getD_some, decide_eq_true_iff]
      constructor
      · rintro ⟨a, ha, dx, hdx, dy, hdy, hmem, hdist⟩
        refine ⟨a, ha, (a.1 + dx, a.2 + dy), hmem, ?_⟩
        have hprops := of_decide_eq_true hdist
        simpa using hprops
      · rintro ⟨a, ha, b, hb, hr, hdist⟩
        have hdx : (b.1 - a.1) ∈ Finset.Icc (-(pyTrunc (r / voxelSize) + 1)) (pyTrunc (r / voxelSize) + 1) :=
          grid_bound _ _ r hr hdist
        have hdy : (b.2 - a.2) ∈ Finset.Icc (-(pyTrunc (r / voxelSize) + 1)) (pyTrunc (r / voxelSize) + 1) := by
          have := grid_bound (b.2 - a.2) (b.1 - a.1) r hr (by
            calc (((b.2 - a.2) ^ 2 + (b.1 - a.1) ^ 2 : ℤ) : ℚ) * voxelSize ^ 2
                = (((b.1 - a.1) ^ 2 + (b.2 - a.2) ^ 2 : ℤ) : ℚ) * voxelSize ^ 2 := by ring_nf
              _ ≤ r ^ 2 := hdist)
          exact this
        refine ⟨a, ha, b.1 - a.1, hdx, b.2 - a.2, hdy, ?_, ?_⟩
        · have : (a.1 + (b.1 - a.1), a.2 + (b.2 - a.2)) = b := by
            ext <;> omega
          rw [this]; exact hb
        · apply decide_eq_true
          exact ⟨hr, hdist⟩

/-- Modelled from the spec for comparison with the source (claim C1):
for every intermediate layer L the proximity test uses the safety radius
computed from the Z gap between the end layer B and L itself, namely
r(|Z_B - Z_L|) + safetyMargin, with the absolute value written out as a
conditional. -/
def canBatchLayersSpecRadius (det : CollisionDetector) (geo : GeoMap)
    (start_layer end_layer : Layer) (all_layers : List Layer) : Bool :=
  all_layers.all (fun l =>
    if start_layer.layer_number < l.layer_number ∧ l.layer_number < end_layer.layer_number then
      let d := end_layer.z_height - l.z_height
      !checkLayerCollision geo end_layer l
        (getRadiusAtHeight det.nozzle (if d < 0 then -d else d) + det.safety_margin)
    else true)

/-- Claim C1 (amended): can_batch_layers tests every intermediate layer
against one shared safety radius computed once from the Z gap between
the end layer and the start layer, not from the gap between the end
layer and the intermediate layer. -/
theorem c1_single_radius (det : CollisionDetector) (geo : GeoMap)
    (start_layer end_layer : Layer) (all_layers : List Layer) :
    canBatchLayers det geo start_layer end_layer all_layers = true ↔
      ∀ l ∈ all_layers,
        start_layer.layer_number < l.layer_number →
        l.layer_number < end_layer.layer_number →
        checkLayerCollision geo end_layer l
          (getRadiusAtHeight det.nozzle (end_layer.z_height - start_layer.z_height)
            + det.safety_margin) = false := by
  unfold canBatchLayers
  rw [List.all_eq_true]
  constructor
  · intro h l hl h1 h2
    have := h l hl
    simp only [h1, h2, and_self, if_true, Bool.not_eq_true'] at this
    exact this
  · intro h l hl
    by_cases hc : start_layer.layer_number < l.layer_number ∧ l.layer_number < end_layer.layer_number
    · rw [if_pos hc]
      simp only [Bool.not_eq_true']
      exact h l hl hc.1 hc.2
    · simp [hc]

/-- Nozzle and margin for the collision counterexamples: tip diameter 1,
a 90 degree cone so that the half-angle tangent is exactly 1, margin 0. -/
def det1 : CollisionDetector :=
  { nozzle := { diameter := 1, cone_angle := 90, height := 10, tan_half_angle := 1 },
    safety_margin := 0 }

/-- Four-layer input for the C1 counterexample: the start layer 1 at Z 0,
an empty layer 2, layer 3 at Z 19/10 with geometry at X 1, and the end
layer 4 at Z 2 with geometry at the origin. -/
def c1layers : List Layer :=
  [mkLayer 1 0 0 [], mkLayer 2 1 0 [], mkLayer 3 (19/10) 0 [mkExtrude 1 0],
   mkLayer 4 2 0 [mkExtrude 0 0]]

/-- Claim C1 counterexample: on c1layers the source verdict (one radius
from the Z gap between layers 4 and 1, giving 5/2) rejects the batch
because layer 3 geometry lies 1 mm away, while the per-intermediate
radius of the claim (gap 1/10 to layer 3, giving 3/5) accepts it; the
claimed radius rule therefore does not describe can_batch_layers. -/
theorem c1_counterexample :
    canBatchLayers det1 (buildGeometryMap c1layers)
      (mkLayer 1 0 0 []) (mkLayer 4 2 0 [mkExtrude 0 0]) c1layers = false ∧
    canBatchLayersSpecRadius det1 (buildGeometryMap c1layers)
      (mkLayer 1 0 0 []) (mkLayer 4 2 0 [mkExtrude 0 0]) c1layers = true := by
  constructor <;> decide

/-! ## Claims about batching versus the collision oracle -/

/-- Detector for the batcher counterexamples: tip diameter 1, zero cone
tangent, zero margin, so every positive-gap check radius is 1/2. -/
def det2 : CollisionDetector :=
  { nozzle := { diameter := 1, cone_angle := 0, height := 10, tan_half_angle := 0 },
    safety_margin := 0 }

/-- Alternating two-tool input whose layers 3 and 4 overlap at the
origin: the collision engine rejects batching layers 2 and 4, yet the
scheduler will put them adjacently into one batch. -/
def c2layers : List Layer :=
  [mkLayer 1 (1/5) 1 [], mkLayer 2 (2/5) 0 [mkExtrude 0 0],
   mkLayer 3 (3/5) 1 [mkExtrude 0 0], mkLayer 4 (4/5) 0 [mkExtrude 0 0]]

/-- Claim C2 at its failing input: can_batch_layers rejects the pair of
layers 2 and 4 (layer 3 lies between them at distance 0), while
create_batches, which never consults the collision engine, emits a batch
whose layer list places layer 4 immediately after layer 2. -/
theorem c2_collision_ignored :
    canBatchLayers det2 (buildGeometryMap c2layers)
      (mkLayer 2 (2/5) 0 [mkExtrude 0 0]) (mkLayer 4 (4/5) 0 [mkExtrude 0 0]) c2layers = false ∧
    createBatches det2 10 c2layers = some
      [{ tool := 0, start_layer := 2, end_layer := 4,
         layers := [mkLayer 2 (2/5) 0 [mkExtrude 0 0], mkLayer 4 (4/5) 0 [mkExtrude 0 0]] },
       { tool := 1, start_layer := 1, end_layer := 3,
         layers := [mkLayer 1 (1/5) 1 [], mkLayer 3 (3/5) 1 [mkExtrude 0 0]] }] := by
  constructor <;> decide

/-! ## Claims about find_maximum_batch_size -/

/-- The loop of find_maximum_batch_size computes, over any offset range
that raises no exception, one plus the length of the longest accepted
prefix of the offsets. -/
lemma fmbsGo_range (ok : ℕ → Option Bool) :
    ∀ (cap s : ℕ), (∀ i ∈ List.range' s cap, ok i ≠ none) →
      fmbsGo ok (List.range' s cap) s =
        some (s + ((List.range' s cap).takeWhile (fun i => decide (ok i = some true))).length) := by
  intro cap
  induction cap with
  | zero => intro s _; simp [fmbsGo]
  | succ n ih =>
    intro s hnone
    have hrange : List.range' s (n + 1) = s :: List.range' (s + 1) n := rfl
    rw [hrange]
    cases hs : ok s with
    | none =>
      exact absurd hs (hnone s (by rw [hrange]; exact List.mem_cons_self s _))
    | some b =>
      cases b with
      | false => simp [fmbsGo, hs, List.takeWhile_cons]
      | true =>
        have htail : ∀ i ∈ List.range' (s + 1) n, ok i ≠ none := by
          intro i hi
          exact hnone i (by rw [hrange]; exact List.mem_cons_of_mem _ hi)
        have hstep : fmbsGo ok (s :: List.range' (s + 1) n) s =
            fmbsGo ok (List.range' (s + 1) n) (s + 1) := by
          simp [fmbsGo, hs]
        have htw : (s :: List.range' (s + 1) n).takeWhile
              (fun i => decide (ok i = some true)) =
            s :: (List.range' (s + 1) n).takeWhile (fun i => decide (ok i = some true)) := by
          rw [List.takeWhile_cons]
          simp [hs]
        rw [hstep, ih (s + 1) htail, htw]
        simp only [List.length_cons]
        congr 1
        omega

/-- A candidate probe never raises when the start layer number is at
least one, since every probed index is then nonnegative and in-range
accesses are guarded. -/
lemma candidateOk_ne_none (det : CollisionDetector) (geo : GeoMap)
    (start_layer : Layer) (all_layers : List Layer)
    (h : 1 ≤ start_layer.layer_number) (i : ℕ) (hi : 1 ≤ i) :
    candidateOk det geo start_layer all_layers i ≠ none := by
  unfold candidateOk
  set next_idx : ℤ := start_layer.layer_number - 1 + (i : ℤ) with hidx
  by_cases hle : (all_layers.length : ℤ) ≤ next_idx
  · simp [hle]
  · have h0 : 0 ≤ next_idx := by omega
    have hlt : next_idx < all_layers.length := by omega
    have hlt2 : next_idx.toNat < all_layers.length := by omega
    simp only [hle, if_false, pyGetElem, h0, if_true]
    rw [List.get?_eq_get hlt2]
    simp

/-- Characterization shared by the batch-size claims: with a start layer
number of at least one, the walk returns one plus the length of the
longest accepted prefix of offsets, which is bounded by the cap. -/
lemma findMaximumBatchSize_eq (det : CollisionDetector) (geo : GeoMap)
    (start_layer : Layer) (all_layers : List Layer) (max_layers : ℕ)
    (h : 1 ≤ start_layer.layer_number) :
    findMaximumBatchSize det geo start_layer all_layers max_layers =
      some (1 + ((List.range' 1 max_layers).takeWhile
        (fun i => decide (candidateOk det geo start_layer all_layers i = some true))).length) ∧
    ((List.range' 1 max_layers).takeWhile
        (fun i => decide (candidateOk det geo start_layer all_layers i = some true))).length
      ≤ max_layers := by
  have hnone : ∀ i ∈ List.range' 1 max_layers,
      candidateOk det geo start_layer all_layers i ≠ none := by
    intro i hi
    have : 1 ≤ i := by
      have := List.mem_range'.mp hi
      omega
    exact candidateOk_ne_none det geo start_layer all_layers h i this
  refine ⟨fmbsGo_range _ max_layers 1 hnone, ?_⟩
  calc ((List.range' 1 max_layers).takeWhile _).length
      ≤ (List.range' 1 max_layers).length := (List.takeWhile_sublist _).length_le
    _ = max_layers := by simp

/-- Claim C3 (amended): with a start layer number of at least one,
find_maximum_batch_size returns one plus the length of the longest
prefix of candidate offsets 1 .. max_layers that all pass the tool and
collision probes, stopping at the first violation; the result is
therefore at most max_layers + 1, one more than the configured cap. -/
theorem c3_find_maximum_batch_size (det : CollisionDetector) (geo : GeoMap)
    (start_layer : Layer) (all_layers : List Layer) (max_layers : ℕ)
    (h : 1 ≤ start_layer.layer_number) :
    ∃ n, findMaximumBatchSize det geo start_layer all_layers max_layers = some n ∧
      n = 1 + ((List.range' 1 max_layers).takeWhile
          (fun i => decide (candidateOk det geo start_layer all_layers i = some true))).length ∧
      n ≤ max_layers + 1 := by
  obtain ⟨heq, hle⟩ := findMaximumBatchSize_eq det geo start_layer all_layers max_layers h
  exact ⟨_, heq, rfl, by omega⟩

/-- Two same-tool layers with no geometry for the C3 counterexample. -/
def c3layers : List Layer :=
  [mkLayer 1 0 0 [], mkLayer 2 (1/5) 0 []]

/-- Claim C3 counterexample: with cap 1 on two compatible layers the
returned batch size is 2, exceeding the cap. -/
theorem c3_counterexample :
    findMaximumBatchSize det2 (buildGeometryMap c3layers)
      (mkLayer 1 0 0 []) c3layers 1 = some 2 ∧ ¬((2 : ℕ) ≤ 1) := by
  constructor <;> decide

/-- Claim C3 witness: the amended statement evaluated on c3layers with
cap 3 (only one further layer exists, so the walk stops there). -/
theorem c3_witness :
    ∃ n, findMaximumBatchSize det2 (buildGeometryMap c3layers)
        (mkLayer 1 0 0 []) c3layers 3 = some n ∧
      n = 1 + ((List.range' 1 3).takeWhile
          (fun i => decide (candidateOk det2 (buildGeometryMap c3layers)
            (mkLayer 1 0 0 []) c3layers i = some true))).length ∧
      n ≤ 3 + 1 :=
  c3_find_maximum_batch_size det2 (buildGeometryMap c3layers)
    (mkLayer 1 0 0 []) c3layers 3 (by decide)

/-- Claim C10: with a start layer number of at least one the returned
batch size is always at least 1, whatever the following layers are. -/
theorem c10_batch_size_at_least_one (det : CollisionDetector) (geo : GeoMap)
    (start_layer : Layer) (all_layers : List Layer) (max_layers : ℕ)
    (h : 1 ≤ start_layer.layer_number) :
    ∃ n, findMaximumBatchSize det geo start_layer all_layers max_layers = some n ∧ 1 ≤ n := by
  obtain ⟨heq, _⟩ := findMaximumBatchSize_eq det geo start_layer all_layers max_layers h
  exact ⟨_, heq, by omega⟩

/-! ## Claims about create_batches: partition and tool homogeneity -/

/-- A fold by min never exceeds its seed. -/
lemma foldl_min_le_init : ∀ (xs : List ℤ) (a : ℤ), xs.foldl min a ≤ a := by
  intro xs
  induction xs with
  | nil => intro a; simp
  | cons x t ih =>
    intro a
    calc (x :: t).foldl min a = t.foldl min (min a x) := rfl
      _ ≤ min a x := ih (min a x)
      _ ≤ a := min_le_left a x

/-- A fold by min is bounded by every member. -/
lemma foldl_min_le_mem : ∀ (xs : List ℤ) (a x : ℤ), x ∈ xs → xs.foldl min a ≤ x := by
  intro xs
  induction xs with
  | nil => intro a x hx; cases hx
  | cons y t ih =>
    intro a x hx
    rcases List.mem_cons.mp hx with h | h
    · subst h
      calc (x :: t).foldl min a = t.foldl min (min a x) := rfl
        _ ≤ min a x := foldl_min_le_init t (min a x)
        _ ≤ x := min_le_right a x
    · exact ih (min a y) x h

/-- A fold by min returns its seed or a member. -/
lemma foldl_min_mem : ∀ (xs : List ℤ) (a : ℤ), xs.foldl min a = a ∨ xs.foldl min a ∈ xs := by
  intro xs
  induction xs with
  | nil => intro a; left; rfl
  | cons y t ih =>
    intro a
    rcases ih (min a y) with h | h
    · rcases min_cases a y with ⟨he, _⟩ | ⟨he, _⟩
      · left; rw [show (y :: t).foldl min a = t.foldl min (min a y) from rfl, h, he]
      · right; rw [show (y :: t).foldl min a = t.foldl min (min a y) from rfl, h, he]
        exact List.mem_cons_self y t
    · right
      exact List.mem_cons_of_mem y h

/-- A fold by max is at least its seed. -/
lemma foldl_max_ge_init : ∀ (xs : List ℤ) (a : ℤ), a ≤ xs.foldl max a := by
  intro xs
  induction xs with
  | nil => intro a; simp
  | cons x t ih =>
    intro a
    calc a ≤ max a x := le_max_left a x
      _ ≤ t.foldl max (max a x) := ih (max a x)
      _ = (x :: t).foldl max a := rfl

/-- A fold by max dominates every member. -/
lemma foldl_max_ge_mem : ∀ (xs : List ℤ) (a x : ℤ), x ∈ xs → x ≤ xs.foldl max a := by
  intro xs
  induction xs with
  | nil => intro a x hx; cases hx
  | cons y t ih =>
    intro a x hx
    rcases List.mem_cons.mp hx with h | h
    · subst h
      calc x ≤ max a x := le_max_right a x
        _ ≤ t.foldl max (max a x) := foldl_max_ge_init t (max a x)
        _ = (x :: t).foldl max a := rfl
    · exact ih (max a y) x h

/-- A fold by max returns its seed or a member. -/
lemma foldl_max_mem : ∀ (xs : List ℤ) (a : ℤ), xs.foldl max a = a ∨ xs.foldl max a ∈ xs := by
  intro xs
  induction xs with
  | nil => intro a; left; rfl
  | cons y t ih =>
    intro a
    rcases ih (max a y) with h | h
    · rcases max_cases a y with ⟨he, _⟩ | ⟨he, _⟩
      · left; rw [show (y :: t).foldl max a = t.foldl max (max a y) from rfl, h, he]
      · right; rw [show (y :: t).foldl max a = t.foldl max (max a y) from rfl, h, he]
        exact List.mem_cons_self y t
    · right
      exact List.mem_cons_of_mem y h

/-- The list minimum bounds every member. -/
lemma listMinZ_le {xs : List ℤ} {x : ℤ} (hx : x ∈ xs) : listMinZ xs ≤ x :=
  foldl_min_le_mem xs (xs.headD 0) x hx

/-- The list maximum dominates every member. -/
lemma le_listMaxZ {xs : List ℤ} {x : ℤ} (hx : x ∈ xs) : x ≤ listMaxZ xs :=
  foldl_max_ge_mem xs (xs.headD 0) x hx

/-- The list minimum of a nonempty list is a member. -/
lemma listMinZ_mem {xs : List ℤ} (h : xs ≠ []) : listMinZ xs ∈ xs := by
  rcases foldl_min_mem xs (xs.headD 0) with he | hm
  · rw [listMinZ, he]
    cases xs with
    | nil => exact absurd rfl h
    | cons y t => exact List.mem_cons_self y t
  · exact hm

/-- The list maximum of a nonempty list is a member. -/
lemma listMaxZ_mem {xs : List ℤ} (h : xs ≠ []) : listMaxZ xs ∈ xs := by
  rcases foldl_max_mem xs (xs.headD 0) with he | hm
  · rw [listMaxZ, he]
    cases xs with
    | nil => exact absurd rfl h
    | cons y t => exact List.mem_cons_self y t
  · exact hm

/-- A list whose value set has exactly two elements takes exactly the
values of its minimum and its maximum, and those differ. -/
lemma two_values (xs : List ℤ) (hcard : xs.toFinset.card = 2) :
    listMinZ xs ≠ listMaxZ xs ∧ ∀ x ∈ xs, x = listMinZ xs ∨ x = listMaxZ xs := by
  have hne : xs ≠ [] := by
    intro he
    rw [he] at hcard
    simp at hcard
  have hmn := listMinZ_mem hne
  have hmx := listMaxZ_mem hne
  have hneq : listMinZ xs ≠ listMaxZ xs := by
    intro heq
    have hall : ∀ x ∈ xs, x = listMinZ xs := by
      intro x hx
      have h1 := listMinZ_le hx
      have h2 := le_listMaxZ hx
      omega
    have hsub : xs.toFinset ⊆ {listMinZ xs} := by
      intro x hx
      rw [List.mem_toFinset] at hx
      rw [Finset.mem_singleton]
      exact hall x hx
    have := Finset.card_le_card hsub
    simp at this
    omega
  refine ⟨hneq, ?_⟩
  intro x hx
  by_contra hcon
  push_neg at hcon
  obtain ⟨h1, h2⟩ := hcon
  have hsub : ({x, listMinZ xs, listMaxZ xs} : Finset ℤ) ⊆ xs.toFinset := by
    intro y hy
    rw [List.mem_toFinset]
    rcases Finset.mem_insert.mp hy with h | h
    · subst h; exact hx
    · rcases Finset.mem_insert.mp h with h | h
      · subst h; exact hmn
      · rw [Finset.mem_singleton] at h; subst h; exact hmx
  have hc3 : ({x, listMinZ xs, listMaxZ xs} : Finset ℤ).card = 3 := by
    rw [Finset.card_insert_of_not_mem, Finset.card_insert_of_not_mem, Finset.card_singleton]
    · simp [hneq]
    · simp [h1, h2]
  have := Finset.card_le_card hsub
  rw [hc3, hcard] at this
  omega

/-- One chunk contributes exactly its taken layers. -/
lemma chunkBatch_flatten (t : ℤ) (maxB : ℕ) (l : List Layer) :
    ((chunkBatch t maxB l).map LayerBatch.layers).flatten = l.take maxB := by
  unfold chunkBatch
  cases h : l.take maxB with
  | nil => simp
  | cons x xs => simp

/-- Every batch a chunk emits carries the chunk tool and a sublist of
the stream. -/
lemma chunkBatch_mem (t : ℤ) (maxB : ℕ) (l : List Layer) (b : LayerBatch)
    (hb : b ∈ chunkBatch t maxB l) : b.tool = t ∧ b.layers.Sublist l := by
  unfold chunkBatch at hb
  cases h : l.take maxB with
  | nil => rw [h] at hb; cases hb
  | cons x xs =>
    rw [h] at hb
    rcases List.mem_singleton.mp hb with rfl
    refine ⟨rfl, ?_⟩
    show (x :: xs).Sublist l
    rw [← h]
    exact List.take_sublist maxB l

/-- With a positive cap and enough fuel the interleaving loop
terminates. -/
lemma interleaveGo_some (t0 t1 : ℤ) (maxB : ℕ) (hm : 1 ≤ maxB) :
    ∀ (fuel : ℕ) (l0 l1 : List Layer), l0.length + l1.length < fuel →
      ∃ bs, interleaveGo t0 t1 maxB fuel l0 l1 = some bs := by
  intro fuel
  induction fuel with
  | zero => intro l0 l1 h; omega
  | succ n ih =>
    intro l0 l1 h
    by_cases hnil : l0 = [] ∧ l1 = []
    · exact ⟨[], by rw [interleaveGo, if_pos hnil]⟩
    · have hlt : (l0.drop maxB).length + (l1.drop maxB).length < n := by
        rw [List.length_drop, List.length_drop]
        have : l0.length ≠ 0 ∨ l1.length ≠ 0 := by
          by_contra hc
          push_neg at hc
          exact hnil ⟨List.length_eq_zero.mp hc.1, List.length_eq_zero.mp hc.2⟩
        omega
      obtain ⟨rest, hrest⟩ := ih (l0.drop maxB) (l1.drop maxB) hlt
      refine ⟨chunkBatch t0 maxB l0 ++ chunkBatch t1 maxB l1 ++ rest, ?_⟩
      rw [interleaveGo, if_neg hnil]
      simp only [hrest]

/-- The layers of the batches the interleaving loop emits are a
permutation of the concatenated streams. -/
lemma interleaveGo_perm (t0 t1 : ℤ) (maxB : ℕ) :
    ∀ (fuel : ℕ) (l0 l1 : List Layer) (bs : List LayerBatch),
      interleaveGo t0 t1 maxB fuel l0 l1 = some bs →
      ((bs.map LayerBatch.layers).flatten).Perm (l0 ++ l1) := by
  intro fuel
  induction fuel with
  | zero =>
    intro l0 l1 bs h
    rw [interleaveGo] at h
    by_cases hnil : l0 = [] ∧ l1 = []
    · rw [if_pos hnil] at h
      obtain ⟨rfl⟩ := Option.some.inj h
      rw [hnil.1, hnil.2]
      simp
    · rw [if_neg hnil] at h
      cases h
  | succ n ih =>
    intro l0 l1 bs h
    rw [interleaveGo] at h
    by_cases hnil : l0 = [] ∧ l1 = []
    · rw [if_pos hnil] at h
      obtain ⟨rfl⟩ := Option.some.inj h
      rw [hnil.1, hnil.2]
      simp
    · rw [if_neg hnil] at h
      cases hrest : interleaveGo t0 t1 maxB n (l0.drop maxB) (l1.drop maxB) with
      | none => rw [hrest] at h; cases h
      | some rest =>
        rw [hrest] at h
        obtain ⟨rfl⟩ := Option.some.inj h
        have ihp := ih (l0.drop maxB) (l1.drop maxB) rest hrest
        rw [List.map_append, List.map_append, List.flatten_append, List.flatten_append,
          chunkBatch_flatten, chunkBatch_flatten, List.append_assoc]
        refine List.Perm.trans ((ihp.append_left _).append_left _) ?_
        have hmid : (l1.take maxB ++ (l0.drop maxB ++ l1.drop maxB)).Perm
            (l0.drop maxB ++ (l1.take maxB ++ l1.drop maxB)) := by
          rw [← List.append_assoc, ← List.append_assoc]
          exact List.perm_append_comm.append_right _
        refine List.Perm.trans (hmid.append_left _) ?_
        rw [← List.append_assoc, List.take_append_drop, List.take_append_drop]

/-- Every batch the interleaving loop emits is a tool-tagged sublist of
one of the two streams. -/
lemma interleaveGo_mem (t0 t1 : ℤ) (maxB : ℕ) :
    ∀ (fuel : ℕ) (l0 l1 : List Layer) (bs : List LayerBatch),
      interleaveGo t0 t1 maxB fuel l0 l1 = some bs →
      ∀ b ∈ bs, (b.tool = t0 ∧ b.layers.Sublist l0) ∨ (b.tool = t1 ∧ b.layers.Sublist l1) := by
  intro fuel
  induction fuel with
  | zero =>
    intro l0 l1 bs h b hb
    rw [interleaveGo] at h
    by_cases hnil : l0 = [] ∧ l1 = []
    · rw [if_pos hnil] at h
      obtain ⟨rfl⟩ := Option.some.inj h
      cases hb
    · rw [if_neg hnil] at h
      cases h
  | succ n ih =>
    intro l0 l1 bs h b hb
    rw [interleaveGo] at h
    by_cases hnil : l0 = [] ∧ l1 = []
    · rw [if_pos hnil] at h
      obtain ⟨rfl⟩ := Option.some.inj h
      cases hb
    · rw [if_neg hnil] at h
      cases hrest : interleaveGo t0 t1 maxB n (l0.drop maxB) (l1.drop maxB) with
      | none => rw [hrest] at h; cases h
      | some rest =>
        rw [hrest] at h
        obtain ⟨rfl⟩ := Option.some.inj h
        rcases List.mem_append.mp hb with hb1 | hb2
        · rcases List.mem_append.mp hb1 with hc0 | hc1
          · left
            obtain ⟨ht, hs⟩ := chunkBatch_mem t0 maxB l0 b hc0
            exact ⟨ht, hs⟩
          · right
            obtain ⟨ht, hs⟩ := chunkBatch_mem t1 maxB l1 b hc1
            exact ⟨ht, hs⟩
        · rcases ih (l0.drop maxB) (l1.drop maxB) rest hrest b hb2 with ⟨ht, hs⟩ | ⟨ht, hs⟩
          · exact Or.inl ⟨ht, hs.trans (List.drop_sublist maxB l0)⟩
          · exact Or.inr ⟨ht, hs.trans (List.drop_sublist maxB l1)⟩

/-- The sequential loop loses and duplicates nothing: the layers of its
batches, concatenated, are the pending run followed by the remainder. -/
lemma seqGo_flatten (maxB : ℕ) :
    ∀ (rem cur : List Layer) (curTool : Option ℤ),
      ((seqGo maxB rem cur curTool).map LayerBatch.layers).flatten = cur ++ rem := by
  intro rem
  induction rem with
  | nil =>
    intro cur curTool
    by_cases hc : cur = []
    · simp [seqGo, hc]
    · simp [seqGo, hc, closeBatch]
  | cons l rest ih =>
    intro cur curTool
    cases curTool with
    | none =>
      rw [seqGo, ih]
      simp
    | some t =>
      by_cases hf : (t ≠ toolOf l ∨ maxB ≤ cur.length) ∧ cur ≠ []
      · rw [seqGo, if_pos hf]
        simp only [List.map_cons, List.flatten_cons, ih]
        simp [closeBatch]
      · rw [seqGo, if_neg hf, ih]
        simp

/-- A member list of a list of lists is a sublist of the concatenation. -/
lemma mem_flatten_sublist : ∀ (xss : List (List α)) (xs : List α),
    xs ∈ xss → xs.Sublist xss.flatten := by
  intro xss
  induction xss with
  | nil => intro xs h; cases h
  | cons y t ih =>
    intro xs h
    rcases List.mem_cons.mp h with h | h
    · subst h
      rw [List.flatten_cons]
      exact List.sublist_append_left xs t.flatten
    · rw [List.flatten_cons]
      exact (ih xs h).trans (List.sublist_append_right y t.flatten)

/-- Tool homogeneity of the sequential loop, under the reachable-state
invariant that the pending run is nonempty exactly when a tool is
recorded, and then carries that tool throughout. -/
lemma seqGo_tools (maxB : ℕ) :
    ∀ (rem cur : List Layer) (curTool : Option ℤ),
      (curTool = none ↔ cur = []) →
      (∀ t, curTool = some t → ∀ x ∈ cur, toolOf x = t) →
      ∀ b ∈ seqGo maxB rem cur curTool, ∀ l ∈ b.layers, toolOf l = b.tool := by
  intro rem
  induction rem with
  | nil =>
    intro cur curTool hiff hall b hb l hl
    by_cases hc : cur = []
    · rw [seqGo, if_pos hc] at hb
      cases hb
    · rw [seqGo, if_neg hc] at hb
      rcases List.mem_singleton.mp hb with rfl
      cases ht : curTool with
      | none => exact absurd (hiff.mp ht) hc
      | some t =>
        simp only [closeBatch, ht, Option.getD_some]
        exact hall t ht l hl
  | cons x rest ih =>
    intro cur curTool hiff hall b hb l hl
    cases ht : curTool with
    | none =>
      have hc : cur = [] := hiff.mp ht
      rw [ht] at hb
      rw [seqGo] at hb
      subst hc
      refine ih [x] (some (toolOf x)) (by simp) ?_ b hb l hl
      intro t htt y hy
      rcases List.mem_singleton.mp hy with rfl
      exact Option.some.inj htt
    | some t =>
      rw [ht] at hb
      have hc : cur ≠ [] := by
        intro he
        rw [hiff.mpr he] at ht
        cases ht
      by_cases hf : (t ≠ toolOf x ∨ maxB ≤ cur.length) ∧ cur ≠ []
      · rw [seqGo, if_pos hf] at hb
        rcases List.mem_cons.mp hb with hb0 | hbr
        · subst hb0
          simp only [closeBatch, Option.getD_some]
          exact hall t ht l hl
        · refine ih [x] (some (toolOf x)) (by simp) ?_ b hbr l hl
          intro s hs y hy
          rcases List.mem_singleton.mp hy with rfl
          exact Option.some.inj hs
      · rw [seqGo, if_neg hf] at hb
        have hteq : t = toolOf x := by
          rcases Classical.em (t = toolOf x) with h | h
          · exact h
          · exfalso
            exact hf ⟨Or.inl h, hc⟩
        refine ih (cur ++ [x]) (some t) (by simp) ?_ b hb l hl
        intro s hs y hy
        have hst : s = t := (Option.some.inj hs).symm
        subst hst
        rcases List.mem_append.mp hy with hy | hy
        · exact hall s ht y hy
        · rcases List.mem_singleton.mp hy with rfl
          exact hteq.symm

/-- Unfolding of create_batches on a nonempty input into its two
branches. -/
lemma createBatches_eq (det : CollisionDetector) (maxB : ℕ) (layers : List Layer)
    (h0 : layers ≠ []) :
    createBatches det maxB layers =
      if ((List.range (min 10 ((layers.map toolOf).length - 1))).all
            (fun i => !((layers.map toolOf).getD i 0 = (layers.map toolOf).getD (i + 1) 0 : Bool)) = true
          ∧ (layers.map toolOf).toFinset.card = 2) then
        interleaveGo (listMinZ (layers.map toolOf)) (listMaxZ (layers.map toolOf)) maxB
          ((layers.filter (fun l => toolOf l = listMinZ (layers.map toolOf))).length +
            (layers.filter (fun l => toolOf l = listMaxZ (layers.map toolOf))).length + 1)
          (layers.filter (fun l => toolOf l = listMinZ (layers.map toolOf)))
          (layers.filter (fun l => toolOf l = listMaxZ (layers.map toolOf)))
      else some (createSequentialBatches maxB layers) := by
  unfold createBatches
  rw [if_neg h0]

/-- Claim C4: for a positive cap, create_batches partitions its input:
the batch layer lists concatenate to a permutation of the input (every
input layer lands in exactly one batch), each batch preserves the
original relative order (its layer list is a sublist of the input), and
every member carries the tool of its batch (a missing tool read as 0,
exactly as the batcher reads it). -/
theorem c4_create_batches_partition (det : CollisionDetector) (maxB : ℕ)
    (layers : List Layer) (hm : 1 ≤ maxB) :
    ∃ bs, createBatches det maxB layers = some bs ∧
      ((bs.map LayerBatch.layers).flatten).Perm layers ∧
      (∀ b ∈ bs, b.layers.Sublist layers) ∧
      (∀ b ∈ bs, ∀ l ∈ b.layers, toolOf l = b.tool) := by
  by_cases h0 : layers = []
  · subst h0
    refine ⟨[], ?_, by simp, by simp, by simp⟩
    rw [createBatches]
    simp
  · rw [createBatches_eq det maxB layers h0]
    by_cases halt : ((List.range (min 10 ((layers.map toolOf).length - 1))).all
          (fun i => !((layers.map toolOf).getD i 0 = (layers.map toolOf).getD (i + 1) 0 : Bool)) = true
        ∧ (layers.map toolOf).toFinset.card = 2)
    · rw [if_pos halt]
      obtain ⟨hneq, hdich⟩ := two_values (layers.map toolOf) halt.2
      set t0 := listMinZ (layers.map toolOf) with ht0
      set t1 := listMaxZ (layers.map toolOf) with ht1
      set l0 := layers.filter (fun l => toolOf l = t0) with hl0
      set l1 := layers.filter (fun l => toolOf l = t1) with hl1
      obtain ⟨bs, hbs⟩ := interleaveGo_some t0 t1 maxB hm
        (l0.length + l1.length + 1) l0 l1 (by omega)
      refine ⟨bs, hbs, ?_, ?_, ?_⟩
      · have hperm01 : (l0 ++ l1).Perm layers := by
          have hcongr : l1 = layers.filter
              (fun a => !(fun l => decide (toolOf l = t0)) a) := by
            rw [hl1]
            apply List.filter_congr
            intro x hx
            have hmem : toolOf x ∈ layers.map toolOf := List.mem_map_of_mem toolOf hx
            rcases hdich (toolOf x) hmem with h | h
            · simp [h, hneq, Ne.symm hneq]
            · simp [h, hneq, Ne.symm hneq]
          rw [hcongr, hl0]
          exact List.filter_append_perm _ layers
        exact (interleaveGo_perm t0 t1 maxB _ l0 l1 bs hbs).trans hperm01
      · intro b hb
        rcases interleaveGo_mem t0 t1 maxB _ l0 l1 bs hbs b hb with ⟨_, hs⟩ | ⟨_, hs⟩
        · exact hs.trans (List.filter_sublist layers)
        · exact hs.trans (List.filter_sublist layers)
      · intro b hb l hl
        rcases interleaveGo_mem t0 t1 maxB _ l0 l1 bs hbs b hb with ⟨ht, hs⟩ | ⟨ht, hs⟩
        · have : l ∈ l0 := hs.subset hl
          rw [hl0, List.mem_filter] at this
          rw [ht]
          exact of_decide_eq_true this.2
        · have : l ∈ l1 := hs.subset hl
          rw [hl1, List.mem_filter] at this
          rw [ht]
          exact of_decide_eq_true this.2
    · rw [if_neg halt]
      refine ⟨createSequentialBatches maxB layers, rfl, ?_, ?_, ?_⟩
      · rw [createSequentialBatches, seqGo_flatten]
        simp
      · intro b hb
        have hmem : b.layers ∈ (createSequentialBatches maxB layers).map LayerBatch.layers :=
          List.mem_map_of_mem LayerBatch.layers hb
        have := mem_flatten_sublist _ _ hmem
        rw [createSequentialBatches, seqGo_flatten] at this
        simpa using this
      · intro b hb l hl
        exact seqGo_tools maxB layers [] none (by simp) (by simp) b hb l hl

/-- Claim C4 witness: the partition statement instantiated on the
four-layer alternating input with cap 1. -/
theorem c4_witness :
    ∃ bs, createBatches det2 1 c2layers = some bs ∧
      ((bs.map LayerBatch.layers).flatten).Perm c2layers ∧
      (∀ b ∈ bs, b.layers.Sublist c2layers) ∧
      (∀ b ∈ bs, ∀ l ∈ b.layers, toolOf l = b.tool) :=
  c4_create_batches_partition det2 1 c2layers (by decide)

/-- Claim C10 witness: the minimum batch size statement instantiated
where the very next layer switches tools. -/
theorem c10_witness :
    ∃ n, findMaximumBatchSize det2 (buildGeometryMap c2layers)
        (mkLayer 1 (1/5) 1 []) c2layers 5 = some n ∧ 1 ≤ n :=
  c10_batch_size_at_least_one det2 (buildGeometryMap c2layers)
    (mkLayer 1 (1/5) 1 []) c2layers 5 (by decide)

/-! ## Claims about parse_lines -/

/-- One loop iteration on a line that is not a layer-marker comment
keeps a fresh-style state: still in the header, no layer open, no layer
emitted. -/
lemma processLine_no_marker (st : ParseState) (n : ℕ) (raw : String)
    (hmk : isMarkerCandidate (String.mk (trimChars raw.toList)) = false)
    (h1 : st.in_header = true) (h2 : st.current_layer = none) (h3 : st.layers = []) :
    (processLine st n raw).in_header = true ∧
    (processLine st n raw).current_layer = none ∧
    (processLine st n raw).layers = [] := by
  have hmk2 : isMarkerCandidate (String.mk (trimChars raw.data)) = false := hmk
  by_cases hb : trimChars raw.data = []
  · simp [processLine, hb, h1, h2, h3]
  · simp [processLine, hb, hmk2, h1, h2, h3]

/-- A pair drawn from an enumerated list carries a member of the list. -/
lemma enum_snd_mem {α : Type} (l : List α) (p : ℕ × α) (hp : p ∈ l.enum) : p.2 ∈ l := by
  rw [← List.enum_map_snd l]
  exact List.mem_map_of_mem Prod.snd hp

/-- Claim C5 (amended): on input containing no layer-marker comment the
parser stays in header mode throughout, so parse_lines returns no layer
at all; in particular a commanded Z value strictly greater than the
highest Z seen so far never starts a layer, since only marker comments
do. -/
theorem c5_no_marker_no_layers (lines : List String)
    (hnm : ∀ l ∈ lines, isMarkerCandidate (String.mk (trimChars l.toList)) = false) :
    parseLines lines = [] := by
  have hfold : ∀ (ps : List (ℕ × String)) (st : ParseState),
      (∀ p ∈ ps, isMarkerCandidate (String.mk (trimChars p.2.toList)) = false) →
      st.in_header = true → st.current_layer = none → st.layers = [] →
      (ps.foldl (fun s q => processLine s q.1 q.2) st).in_header = true ∧
      (ps.foldl (fun s q => processLine s q.1 q.2) st).current_layer = none ∧
      (ps.foldl (fun s q => processLine s q.1 q.2) st).layers = [] := by
    intro ps
    induction ps with
    | nil => intro st _ h1 h2 h3; exact ⟨h1, h2, h3⟩
    | cons q rest ih =>
      intro st hmk h1 h2 h3
      obtain ⟨g1, g2, g3⟩ := processLine_no_marker st q.1 q.2
        (hmk q (List.mem_cons_self q rest)) h1 h2 h3
      exact ih (processLine st q.1 q.2)
        (fun p hp => hmk p (List.mem_cons_of_mem q hp)) g1 g2 g3
  have := hfold lines.enum initParseState
    (fun p hp => hnm p.2 (enum_snd_mem lines p hp)) rfl rfl rfl
  rw [parseLines, flushCurrentLayer, this.2.1]
  exact this.2.2

/-- Claim C5 counterexample: an input with two commands whose Z values
strictly increase and no layer-marker comment parses to no layers at
all, not to one layer per Z increase: the fallback boundary detection
that the claim describes does not exist in parse_lines. -/
theorem c5_counterexample :
    parseLines ["G1 Z0.2 E1", "G1 Z0.4 E1"] = [] ∧
    (parseCommand 0 "G1 Z0.2 E1").z = some (1/5) ∧
    (parseCommand 1 "G1 Z0.4 E1").z = some (2/5) := by
  refine ⟨by decide, by decide, by decide⟩

/-- Claim C5 witness: the amended statement evaluated on a one-line
marker-free input. -/
theorem c5_witness : parseLines ["G1 X1 Y1 E1"] = [] :=
  c5_no_marker_no_layers ["G1 X1 Y1 E1"] (by decide)

/-! ## Claim about Z-hop insertion -/

/-- Claim C7: with Z-hop enabled and a destination strictly below the
start, insert_zhop_for_travel produces a Z-only raise to the start
height plus the configured hop, then XY-only travel commands with no Z
field, then a Z-only drop to the destination; no command in the result
addresses X or Y together with any Z move. -/
theorem c7_zhop_wraps_travel (cfg : ZHopConfig) (commands : List GCodeCommand)
    (from_z to_z : ℚ) (pos : ℚ × ℚ × ℚ)
    (hen : cfg.enabled = true) (hlt : to_z < from_z) :
    ∃ up mid down,
      insertZhopForTravel cfg commands from_z to_z pos = up :: mid ++ [down] ∧
      up.x = none ∧ up.y = none ∧ up.z = some (from_z + cfg.zhop_height) ∧
      down.x = none ∧ down.y = none ∧ down.z = some to_z ∧
      (∀ c ∈ mid, c.z = none ∧ (c.x ≠ none ∨ c.y ≠ none)) ∧
      (∀ c ∈ insertZhopForTravel cfg commands from_z to_z pos,
        (c.x ≠ none ∨ c.y ≠ none) → c.z = none) := by
  have hres : insertZhopForTravel cfg commands from_z to_z pos =
      addZhopSequence cfg commands from_z to_z pos := by
    rw [insertZhopForTravel, hen]
    simp [hlt]
  rw [hres]
  unfold addZhopSequence
  refine ⟨_, _, _, rfl, rfl, rfl, rfl, rfl, rfl, rfl, ?_, ?_⟩
  · intro c hc
    rw [List.mem_filterMap] at hc
    obtain ⟨a, _, ha⟩ := hc
    by_cases hg : (a.command = "G0" ∨ a.command = "G1") ∧ (a.x ≠ none ∨ a.y ≠ none)
    · rw [if_pos hg] at ha
      obtain ⟨rfl⟩ := Option.some.inj ha
      exact ⟨rfl, hg.2⟩
    · rw [if_neg hg] at ha
      cases ha
  · intro c hc hxy
    rcases List.mem_cons.mp hc with rfl | hc
    · rcases hxy with hx | hy
      · exact absurd rfl hx
      · exact absurd rfl hy
    · rcases List.mem_append.mp hc with hmid | hlast
      · rw [List.mem_filterMap] at hmid
        obtain ⟨a, _, ha⟩ := hmid
        by_cases hg : (a.command = "G0" ∨ a.command = "G1") ∧ (a.x ≠ none ∨ a.y ≠ none)
        · rw [if_pos hg] at ha
          obtain ⟨rfl⟩ := Option.some.inj ha
          rfl
        · rw [if_neg hg] at ha
          cases ha
      · rcases List.mem_singleton.mp hlast with rfl
        rcases hxy with hx | hy
        · exact absurd rfl hx
        · exact absurd rfl hy

/-- Claim C7 witness: the wrap statement evaluated on one travel command
from Z 1 down to Z 1/2. -/
theorem c7_witness :
    ∃ up mid down,
      insertZhopForTravel { zhop_height := 1/2, zhop_speed := 10, travel_speed := 150, enabled := true }
          [mkExtrude 3 4] 1 (1/2) (0, 0, 1) = up :: mid ++ [down] ∧
      up.x = none ∧ up.y = none ∧ up.z = some (1 + 1/2) ∧
      down.x = none ∧ down.y = none ∧ down.z = some (1/2) ∧
      (∀ c ∈ mid, c.z = none ∧ (c.x ≠ none ∨ c.y ≠ none)) ∧
      (∀ c ∈ insertZhopForTravel { zhop_height := 1/2, zhop_speed := 10, travel_speed := 150, enabled := true }
          [mkExtrude 3 4] 1 (1/2) (0, 0, 1),
        (c.x ≠ none ∨ c.y ≠ none) → c.z = none) :=
  c7_zhop_wraps_travel _ [mkExtrude 3 4] 1 (1/2) (0, 0, 1) rfl (by norm_num)

/-! ## Claim about prime tower synchronization -/

/-- Concrete configuration for the C8 evaluation: towers enabled, layer
height 1/5. -/
def ptcfg : PrimeTowerConfig :=
  { enabled := true, tower_size := 10, tower_spacing := 5, wall_thickness := 4/5,
    purge_volume := 30, position_x := 200, position_y := 200, layer_height := 1/5,
    extrusion_width := 2/5 }

/-- The two towers of the C8 manager, both caught up to layer 0. -/
def ptmgr : PrimeTowerManager :=
  { config := ptcfg,
    towers := [{ tool := 0, position := (200, 200), size := 10, current_layer := 0 },
               { tool := 1, position := (215, 200), size := 10, current_layer := 0 }] }

/-- Claim C8 at its failing input: synchronizing at current layer 2 with
tool 1 active and the tool 0 tower 2 layers behind does inject exactly
two tower blocks (one tool 0 select each), but no injected command
carries any Z coordinate (get_perimeter_commands ignores its z_height
argument), and the catch-up counter afterwards reads 3, not the current
layer 2, because the loop recomputes each injected layer number from the
counter it has already advanced. -/
theorem c8_sync_towers_bug :
    (synchronizeTowers ptmgr 1 2 (2/5)).1.countP (fun c => c.tool = some 0) = 2 ∧
    (∀ c ∈ (synchronizeTowers ptmgr 1 2 (2/5)).1, c.z = none) ∧
    ((synchronizeTowers ptmgr 1 2 (2/5)).2.towers.find? (fun t => t.tool = 0)).map
      PrimeTower.current_layer = some 3 ∧
    (3 : ℤ) ≠ 2 := by
  refine ⟨by decide, by decide, by decide, by decide⟩

/-! ## Claim about per-object layer splitting -/

/-- The split loop invariant: the tool-change blocks and command runs of
the closed segments, followed by the pending block and run, spell out
exactly the commands consumed so far; and inside a tool-change block the
pending command run is empty. -/
lemma split_fold_invariant (layer : Layer) :
    ∀ (cmds : List GCodeCommand) (st : SplitState),
      (st.in_tc = true → st.cur = []) →
      ((cmds.foldl (splitStep layer) st).in_tc = true →
        (cmds.foldl (splitStep layer) st).cur = []) ∧
      joinSegments (cmds.foldl (splitStep layer) st).segments ++
          (cmds.foldl (splitStep layer) st).tcc ++ (cmds.foldl (splitStep layer) st).cur =
        (joinSegments st.segments ++ st.tcc ++ st.cur) ++ cmds := by
  intro cmds
  induction cmds with
  | nil => intro st h; exact ⟨h, by simp⟩
  | cons cmd rest ih =>
    intro st h
    have hstep : ∀ (st2 : SplitState), splitStep layer st cmd = st2 →
        (st2.in_tc = true → st2.cur = []) ∧
        joinSegments st2.segments ++ st2.tcc ++ st2.cur =
          (joinSegments st.segments ++ st.tcc ++ st.cur) ++ [cmd] := by
      intro st2 hst2
      rw [splitStep] at hst2
      cases htool : toolSelectNum cmd with
      | some n =>
        rw [htool] at hst2
        by_cases hcur : st.cur ≠ []
        · rw [if_pos hcur] at hst2
          subst hst2
          refine ⟨fun _ => rfl, ?_⟩
          simp [joinSegments, mkObjectSeg, List.append_assoc]
        · rw [if_neg hcur] at hst2
          push_neg at hcur
          subst hst2
          refine ⟨fun _ => hcur, ?_⟩
          simp [hcur, List.append_assoc]
      | none =>
        rw [htool] at hst2
        by_cases hseq : st.in_tc = true ∧ (cmd.is_tool_change_sequence = true ∨
            cmd.command ∈ ["M620", "M621", "M104", "M109", "M106"])
        · rw [if_pos hseq] at hst2
          subst hst2
          have hce := h hseq.1
          refine ⟨fun _ => hce, ?_⟩
          simp [hce, List.append_assoc]
        · rw [if_neg hseq] at hst2
          subst hst2
          refine ⟨fun hco => absurd hco (by simp), ?_⟩
          simp [List.append_assoc]
    obtain ⟨g1, g2⟩ := hstep (splitStep layer st cmd) rfl
    have hfold : (cmd :: rest).foldl (splitStep layer) st =
        rest.foldl (splitStep layer) (splitStep layer st cmd) := rfl
    rw [hfold]
    obtain ⟨k1, k2⟩ := ih (splitStep layer st cmd) g1
    refine ⟨k1, ?_⟩
    rw [k2, g2]
    simp

/-- Claim C9 (amended): when the split of a layer ends with a pending
ordinary command run (the layer does not end inside a tool-change
block), concatenating, for each produced segment in order, its
tool-change block followed by its command list reconstructs the layer
command sequence exactly. -/
theorem c9_segments_reconstruct (layer : Layer)
    (h : (runSplit layer).cur ≠ []) :
    joinSegments (splitLayerByToolChange layer) = layer.commands := by
  have hinv := split_fold_invariant layer layer.commands
    { segments := [], cur := [], tcc := [], tool := startingTool layer, in_tc := false }
    (by intro hco; rfl)
  rw [splitLayerByToolChange]
  rw [if_pos h]
  have hne : (runSplit layer).segments ++
      [mkObjectSeg layer (runSplit layer).tool (runSplit layer).cur (runSplit layer).tcc] ≠ [] := by
    simp
  rw [if_neg hne]
  have hjoin : joinSegments ((runSplit layer).segments ++
      [mkObjectSeg layer (runSplit layer).tool (runSplit layer).cur (runSplit layer).tcc]) =
      joinSegments (runSplit layer).segments ++ (runSplit layer).tcc ++ (runSplit layer).cur := by
    simp [joinSegments, mkObjectSeg, List.append_assoc]
  rw [hjoin]
  have h2 := hinv.2
  unfold runSplit
  simpa [joinSegments] using h2

/-- A bare command line with the given token and no parameters. -/
def mkBareCmd (s : String) : GCodeCommand :=
  { line_number := 0, raw_line := s, command := s, x := none, y := none,
    z := none, e := none, f := none, tool := none, comment := none,
    is_tool_change_sequence := false }

/-- Layer ending in a tool change, for the C9 counterexample. -/
def c9layer : Layer :=
  { layer_number := 1, z_height := 1/5, segments := [],
    commands := [mkExtrude 0 0, mkBareCmd "T1"], tool := some 0, bounds := none,
    tool_change_commands := [] }

/-- Claim C9 counterexample: on a layer whose command list ends with the
tool-change marker T1, the split emits one segment holding only the
extrusion move; concatenating the segment command lists, with or without
the tool-change blocks, omits the trailing T1, so the reconstruction
claimed does not hold as stated. -/
theorem c9_counterexample :
    ((splitLayerByToolChange c9layer).map ObjectLayer.commands).flatten ≠ c9layer.commands ∧
    joinSegments (splitLayerByToolChange c9layer) ≠ c9layer.commands := by
  refine ⟨by decide, by decide⟩

/-- Layer for the C9 witness: a tool change followed by a move. -/
def c9layerW : Layer :=
  { layer_number := 1, z_height := 1/5, segments := [],
    commands := [mkBareCmd "T1", mkExtrude 0 0], tool := some 0, bounds := none,
    tool_change_commands := [] }

/-- Claim C9 witness: the amended reconstruction evaluated on a layer
with a leading tool change. -/
theorem c9_witness : joinSegments (splitLayerByToolChange c9layerW) = c9layerW.commands :=
  c9_segments_reconstruct c9layerW (by decide)

end Spec2Proof
